import Mathlib

/-!
# Verification of the hybrid-ai retrieval assistant

Shallow embedding of `src/hybrid_ai/hybrid_ai.py` (class `HybridAI`).

Modelling conventions:

* The SQLite database is a pure value `DB` holding the two tables `memory`
  and `pdf_files` as lists of rows in rowid order.  SQLite assigns a fresh
  `INTEGER PRIMARY KEY` (no AUTOINCREMENT) as one more than the largest
  rowid currently in the table (`nextId`), so an insert appends at the end
  of the scan order; an unordered `SELECT` returns rows in rowid order.
* `TfidfVectorizer` / `cosine_similarity` (scikit-learn, default settings)
  are embedded exactly at the level the ranking behaviour depends on:
  the default analyzer lowercases the text and extracts the word tokens
  matching `\w\w+` (maximal runs of word characters, kept when at least two
  characters long); a document's TF-IDF coordinate for term `t` is
  `count(doc, t) * idf(t)` with `idf(t) > 0` (smooth idf is
  `ln((1+n)/(1+df)) + 1 ≥ 1`).  We keep the idf weights as an arbitrary
  parameter `w : String → ℚ` that is assumed positive, so every theorem
  below holds for the weights scikit-learn actually computes.  Cosine
  similarity of L2-normalised non-negative vectors is
  `dot / (√‖u‖² * √‖v‖²)`, and `0` when either vector is zero (this is what
  `sklearn.preprocessing.normalize` produces for an all-zero row).
  Floating point is modelled by exact arithmetic (`ℚ` inside the decision
  procedures, `ℝ` for the similarity values themselves).
  `fit_transform` raises `ValueError("empty vocabulary; ...")` when no
  document contributes a token; this is modelled by the `Except.error`
  branch of `_search_local_memory`.
* External collaborators are parameters: the DuckDuckGo adapter
  (`search_online`) is a function `String → Option String` (its broad
  `except` clause already collapses failures to `None`, and an empty joined
  snippet string is falsy in Python, checked via `truthy`).  `pdfplumber`
  is modelled by passing the per-page extracted texts to `ingest_pdf`
  directly (a page with no text behaves like `""`).  The pyttsx3 sink
  (`_speak`) is a no-op while `tts_enabled` is false (its default) and is
  not modelled.
* Python result strings that contain quote characters are modelled by the
  tagged type `ForgetPdfResult` (`forgot f` stands for
  "Forgot PDF <f> and all related memory.", `notFound i` for
  "No PDF found with ID <i>").
-/

/-! ## Tokenization (scikit-learn default analyzer) -/

/-- A word character of the default `token_pattern` `(?u)\b\w\w+\b`:
alphanumeric or underscore. -/
def isWordChar (c : Char) : Bool := c.isAlphanum || c = '_'

/-- Maximal runs of word characters of a character list (the accumulator
holds the current run, reversed). -/
def wordRunsAux : List Char → List Char → List (List Char)
  | [], acc => if acc.isEmpty then [] else [acc.reverse]
  | c :: cs, acc =>
      if isWordChar c then wordRunsAux cs (c :: acc)
      else if acc.isEmpty then wordRunsAux cs []
      else acc.reverse :: wordRunsAux cs []

/-- `str.lower()` (Python) / lowercasing preprocessing of the vectorizer. -/
def lowerStr (s : String) : String := String.mk (s.data.map Char.toLower)

/-- The tokens `TfidfVectorizer` extracts from one document: lowercase,
maximal word-character runs, keep only runs of length at least two. -/
def tokensOf (s : String) : List String :=
  ((wordRunsAux (lowerStr s).data []).map String.mk).filter (fun t => 2 ≤ t.length)

/-- The fitted vocabulary of a document collection (as a finite set; the
column order of the sparse matrix does not influence any result). -/
def vocabF (docs : List String) : Finset String :=
  (docs.flatMap tokensOf).toFinset

/-- Term count of `t` in document `d` (raw term frequency,
`sublinear_tf=False`). -/
def tcount (d t : String) : ℕ := (tokensOf d).count t

/-! ## TF-IDF vectors and cosine similarity -/

/-- Inner product of the TF-IDF vectors of documents `d` and `e` over
vocabulary `V` with idf weights `w`: coordinate `t` of document `d` is
`tcount d t * w t`. -/
def dotW (w : String → ℚ) (V : Finset String) (d e : String) : ℚ :=
  ∑ t ∈ V, (tcount d t : ℚ) * (tcount e t : ℚ) * w t ^ 2

/-- Cosine similarity of the memory `d` against the query `q`
(`sklearn.metrics.pairwise.cosine_similarity`): `0` when either vector is
zero, otherwise the normalised inner product. -/
noncomputable def cosSim (w : String → ℚ) (V : Finset String) (q d : String) : ℝ :=
  if dotW w V d d = 0 ∨ dotW w V q q = 0 then 0
  else (dotW w V q d : ℝ) / (Real.sqrt (dotW w V d d) * Real.sqrt (dotW w V q q))

/-- Decision `cosSim q d > cosSim q e`, computed on the squared rational
quantities (all inner products of TF-IDF vectors are non-negative). -/
def simGTb (w : String → ℚ) (V : Finset String) (q d e : String) : Bool :=
  let nq := dotW w V q q
  let nd := dotW w V d d
  let ne := dotW w V e e
  let dd := dotW w V q d
  let de := dotW w V q e
  if nq = 0 ∨ nd = 0 then false
  else if ne = 0 then decide (0 < dd)
  else decide (de ^ 2 * nd < dd ^ 2 * ne)

/-- Decision `cosSim q d > 0.2` (the fixed fallback threshold of
`_search_local_memory`), again on squared rational quantities. -/
def simThb (w : String → ℚ) (V : Finset String) (q d : String) : Bool :=
  let nq := dotW w V q q
  let nd := dotW w V d d
  let dd := dotW w V q d
  if nq = 0 ∨ nd = 0 then false
  else decide (nd * nq < 25 * dd ^ 2)

/-- `numpy.argmax` over the similarities: scan left to right keeping the
current best `(index, document)`, replacing it only on a strictly larger
similarity — hence ties keep the earliest position. -/
def argmaxFrom (w : String → ℚ) (V : Finset String) (q : String) :
    List String → Nat → Nat × String → Nat × String
  | [], _, best => best
  | d :: rest, i, best =>
      argmaxFrom w V q rest (i + 1) (if simGTb w V q d best.2 then (i, d) else best)

/-- The message of the `ValueError` scikit-learn raises when fitting finds
no token in any document. -/
def emptyVocabMsg : String := "empty vocabulary; perhaps the documents only contain stop words"

/-- `HybridAI._search_local_memory` (given the already-loaded memory
contents): `None` on an empty corpus; otherwise fit TF-IDF on
`memories + [query]` (raising on an empty vocabulary), take the argmax of
the cosine similarities of the query row against the memory rows, and
return the best memory iff its similarity strictly exceeds `0.2`. -/
def _search_local_memory (w : String → ℚ) (memories : List String) (q : String) :
    Except String (Option String) :=
  match memories with
  | [] => Except.ok none
  | m :: rest =>
      let V := vocabF ((m :: rest) ++ [q])
      if V = ∅ then Except.error emptyVocabMsg
      else
        let best := argmaxFrom w V q rest 1 (0, m)
        if simThb w V q best.2 then Except.ok (some best.2) else Except.ok none

deriving instance DecidableEq for Except

/-! ## The SQLite store -/

/-- A row of the `memory` table. -/
structure Memory where
  id : Nat
  source : String
  content : String
deriving DecidableEq, Repr

/-- A row of the `pdf_files` table. -/
structure PdfFile where
  id : Nat
  filename : String
deriving DecidableEq, Repr

/-- The database created by `_init_db`. -/
structure DB where
  memory : List Memory
  pdf_files : List PdfFile
deriving DecidableEq, Repr

/-- The rowid SQLite assigns to the next `memory` insert: one more than the
largest id currently present (`1` for an empty table). -/
def nextId (rows : List Memory) : Nat := rows.foldr (fun m acc => max m.id acc) 0 + 1

/-- The rowid SQLite assigns to the next `pdf_files` insert. -/
def nextPdfId (rows : List PdfFile) : Nat := rows.foldr (fun r acc => max r.id acc) 0 + 1

/-- `HybridAI._save_memory`: `INSERT INTO memory (source, content)` —
no validation of any kind; the new row gets the next rowid and sits at the
end of the scan order. -/
def _save_memory (db : DB) (source content : String) : DB :=
  { db with memory := db.memory ++ [⟨nextId db.memory, source, content⟩] }

/-- `HybridAI._load_all_memory`: `SELECT content FROM memory`. -/
def _load_all_memory (db : DB) : List String := db.memory.map (fun m => m.content)

/-- `HybridAI.say`. -/
def say (db : DB) (text : String) : String × DB :=
  ("Noted and stored in memory.", _save_memory db "user" text)

/-- `HybridAI.list_memory`: `SELECT id, source, content FROM memory`. -/
def list_memory (db : DB) : List Memory := db.memory

/-- `HybridAI.forget`: `DELETE FROM memory WHERE id=?`. -/
def forget (db : DB) (memoryId : Nat) : String × DB :=
  ("Deleted memory with ID " ++ toString memoryId,
   { db with memory := db.memory.filter (fun m => m.id != memoryId) })

/-- `HybridAI.list_pdfs`: `SELECT id, filename FROM pdf_files`. -/
def list_pdfs (db : DB) : List PdfFile := db.pdf_files

/-- The two result strings of `forget_pdf`, as tagged values. -/
inductive ForgetPdfResult where
  | notFound (pdfId : Nat)
  | forgot (filename : String)
deriving DecidableEq, Repr

/-- `HybridAI.forget_pdf`: look the id up in `pdf_files`; if absent report
`notFound` and change nothing; otherwise delete every memory row whose
source is exactly `"pdf:" + filename` and the one pdf record. -/
def forget_pdf (db : DB) (pdfId : Nat) : ForgetPdfResult × DB :=
  match db.pdf_files.find? (fun r => r.id == pdfId) with
  | none => (ForgetPdfResult.notFound pdfId, db)
  | some r =>
      (ForgetPdfResult.forgot r.filename,
       { memory := db.memory.filter (fun m => m.source != "pdf:" ++ r.filename),
         pdf_files := db.pdf_files.filter (fun p => p.id != pdfId) })

/-! ## Document ingestion -/

/-- Split a character list at a separator character (Python
`text.split(sep)` for a one-character separator, which keeps empty
pieces). -/
def splitChAux (sep : Char) : List Char → List (List Char)
  | [] => [[]]
  | c :: cs =>
      let r := splitChAux sep cs
      if c = sep then [] :: r else (c :: r.headD []) :: r.tail

/-- The last element of a list of strings (`""` for an empty list; the
splitters below never produce an empty list). -/
def lastString : List String → String
  | [] => ""
  | [x] => x
  | _ :: x :: xs => lastString (x :: xs)

/-- `os.path.basename` for POSIX-style paths: the part after the last
`"/"`. -/
def basename (p : String) : String := lastString ((splitChAux '/' p.data).map String.mk)

/-- Python `str.strip()`. -/
def pyStrip (s : String) : String :=
  String.mk (((s.data.dropWhile Char.isWhitespace).reverse.dropWhile Char.isWhitespace).reverse)

/-- Python `text.split("\n")` on a string. -/
def pySplitNl (s : String) : List String := (splitChAux '\n' s.data).map String.mk

/-- The chunks `ingest_pdf` keeps from one page's text: split on newlines,
strip each line, keep the non-empty results.  (A page whose
`extract_text()` is `None` is skipped by the `if text:` guard and behaves
exactly like the empty string here.) -/
def pageChunks (text : String) : List String :=
  (pySplitNl text).filterMap (fun c => if pyStrip c = "" then none else some (pyStrip c))

/-- `HybridAI._save_pdf_record`: insert the basename into `pdf_files`. -/
def _save_pdf_record (db : DB) (pdfPath : String) : DB :=
  { db with pdf_files := db.pdf_files ++ [⟨nextPdfId db.pdf_files, basename pdfPath⟩] }

/-- `HybridAI.ingest_pdf` on the success path (the file exists and
`pdfplumber` extracted `pages`): store every chunk of every page as a
memory with source `"pdf:" + basename`, then register the pdf record, and
report the chunk count. -/
def ingest_pdf (db : DB) (pdfPath : String) (pages : List String) : String × DB :=
  let chunks := pages.flatMap pageChunks
  let db1 := chunks.foldl (fun d c => _save_memory d ("pdf:" ++ basename pdfPath) c) db
  let db2 := _save_pdf_record db1 pdfPath
  ("Ingested " ++ toString chunks.length ++ " text chunks from " ++ pdfPath, db2)

/-! ## The hybrid retrieval engine -/

/-- Python truthiness of an optional string (`if local_answer:` /
`if online_answer:`): false for `None` and for the empty string. -/
def truthy : Option String → Bool
  | none => false
  | some s => s != ""

/-- The fixed "not found" sentinel returned by `ask`. -/
def sentinel : String := "Sorry, I couldn’t find an answer."

/-- `HybridAI.ask`.  The external search adapter is the parameter
`adapter` (`search_online` already returns `None` on failure or when there
are no results).  The result carries the answer, the database after the
call, and whether the adapter was invoked.  The `Except.error` case is the
`ValueError` escaping from `_search_local_memory`. -/
def ask (w : String → ℚ) (adapter : String → Option String) (db : DB) (q : String) :
    Except String (String × DB × Bool) :=
  match _search_local_memory w (_load_all_memory db) q with
  | Except.error e => Except.error e
  | Except.ok la =>
      if truthy la then Except.ok (la.getD "", db, false)
      else
        let oa := adapter q
        if truthy oa then
          Except.ok (oa.getD "", _save_memory db "online" (oa.getD ""), true)
        else
          Except.ok (sentinel, db, true)

/-! ## Helper lemmas about the store -/

/-- The initial database (`_init_db` on a fresh file). -/
def emptyDB : DB := ⟨[], []⟩

lemma memory_id_le_fold {rows : List Memory} {m : Memory} (hm : m ∈ rows) :
    m.id ≤ rows.foldr (fun r acc => max r.id acc) 0 := by
  induction rows with
  | nil => cases hm
  | cons a t ih =>
      rcases List.mem_cons.mp hm with h | h
      · subst h; exact Nat.le_max_left _ _
      · exact le_trans (ih h) (Nat.le_max_right _ _)

lemma memory_id_lt_nextId {rows : List Memory} {m : Memory} (hm : m ∈ rows) :
    m.id < nextId rows :=
  Nat.lt_succ_of_le (memory_id_le_fold hm)

lemma pdf_id_le_fold {rows : List PdfFile} {r : PdfFile} (hr : r ∈ rows) :
    r.id ≤ rows.foldr (fun p acc => max p.id acc) 0 := by
  induction rows with
  | nil => cases hr
  | cons a t ih =>
      rcases List.mem_cons.mp hr with h | h
      · subst h; exact Nat.le_max_left _ _
      · exact le_trans (ih h) (Nat.le_max_right _ _)

lemma pdf_id_lt_nextPdfId {rows : List PdfFile} {r : PdfFile} (hr : r ∈ rows) :
    r.id < nextPdfId rows :=
  Nat.lt_succ_of_le (pdf_id_le_fold hr)

lemma fold_max_append (l : List PdfFile) (x : PdfFile) :
    (l ++ [x]).foldr (fun p acc => max p.id acc) 0
      = max (l.foldr (fun p acc => max p.id acc) 0) x.id := by
  induction l with
  | nil => simp [Nat.max_comm]
  | cons a t ih => simp [ih, Nat.max_assoc]

lemma nextPdfId_append (l : List PdfFile) (f : String) :
    nextPdfId (l ++ [⟨nextPdfId l, f⟩]) = nextPdfId l + 1 := by
  unfold nextPdfId
  rw [fold_max_append]
  have h : l.foldr (fun p acc => max p.id acc) 0 ≤ l.foldr (fun p acc => max p.id acc) 0 + 1 :=
    Nat.le_succ _
  simp [Nat.max_eq_right h]

/-! ## C3: insertion performs no validation -/

/-- C3 (corrected), amended claim: `say` / `_save_memory` perform no
validation at all — a content string that is empty or whitespace-only
after trimming is stored verbatim with the next id, and the call reports
success.  (The claimed `ValidationError` does not exist in the code, so the
store can hold memories with empty content.) -/
theorem say_stores_unvalidated (db : DB) (content : String)
    (_h : pyStrip content = "") :
    (say db content).1 = "Noted and stored in memory." ∧
    (say db content).2.memory = db.memory ++ [⟨nextId db.memory, "user", content⟩] :=
  ⟨rfl, rfl⟩

/-- C3 witness: storing the whitespace-only string `"  "` succeeds and
appends it verbatim. -/
theorem say_stores_unvalidated_witness :
    pyStrip "  " = "" ∧
    ((say emptyDB "  ").1 = "Noted and stored in memory." ∧
     (say emptyDB "  ").2.memory = emptyDB.memory ++ [⟨nextId emptyDB.memory, "user", "  "⟩]) :=
  ⟨by decide, say_stores_unvalidated emptyDB "  " (by decide)⟩

/-- C3 counterexample: inserting the empty string does not fail and leaves
a `Memory` with empty content in the store, contradicting both the claimed
`ValidationError` and the claimed invariant. -/
theorem say_empty_content_stored :
    (say emptyDB "").2.memory = [⟨1, "user", ""⟩] := by decide

/-! ## C4: id assignment -/

/-- C4 (corrected), amended claim: each insert is assigned an id strictly
greater than every id *currently present* in the store (`max + 1`, the
SQLite rowid rule without AUTOINCREMENT).  Ids are therefore strictly
increasing only while nothing is deleted; deleting the row with the
largest id frees that id for reuse. -/
theorem save_id_gt_current (db : DB) (src content : String) (m : Memory)
    (hm : m ∈ db.memory) :
    m.id < nextId db.memory ∧
    (_save_memory db src content).memory
      = db.memory ++ [⟨nextId db.memory, src, content⟩] :=
  ⟨memory_id_lt_nextId hm, rfl⟩

/-- C4 witness: with one stored memory of id `1`, the next insert gets
id `2`. -/
theorem save_id_gt_current_witness :
    (1 : Nat) < nextId [⟨1, "user", "a"⟩] ∧
    (_save_memory ⟨[⟨1, "user", "a"⟩], []⟩ "user" "b").memory
      = [⟨1, "user", "a"⟩] ++ [⟨nextId [⟨1, "user", "a"⟩], "user", "b"⟩] :=
  save_id_gt_current ⟨[⟨1, "user", "a"⟩], []⟩ "user" "b" ⟨1, "user", "a"⟩ (by decide)

/-- C4 counterexample: insert "a" (id 1) and "b" (id 2), delete id 2, then
insert "c": SQLite reassigns id 2 (new rowid = max current + 1), so an id
is reused after its memory was deleted — the claim's "never reassigned"
invariant fails on the code. -/
theorem id_reused_after_delete :
    (say (say emptyDB "a").2 "b").2.memory.map (fun m => m.id) = [1, 2] ∧
    (forget (say (say emptyDB "a").2 "b").2 2).2.memory.map (fun m => m.id) = [1] ∧
    (say (forget (say (say emptyDB "a").2 "b").2 2).2 "c").2.memory.map (fun m => m.id)
      = [1, 2] := by
  decide

/-! ## C8: forget_pdf -/

lemma filter_id_count_one {l : List PdfFile} {r : PdfFile} {x : Nat}
    (hnd : (l.map (fun p => p.id)).Nodup) (hr : r ∈ l) (hx : r.id = x) :
    (l.filter (fun p => p.id == x)).length = 1 := by
  induction l with
  | nil => cases hr
  | cons a t ih =>
      rw [List.map_cons, List.nodup_cons] at hnd
      rcases List.mem_cons.mp hr with h | h
      · subst h
        rw [List.filter_cons_of_pos (by simp [hx])]
        have ht : t.filter (fun p => p.id == x) = [] := by
          rw [List.filter_eq_nil_iff]
          intro p hp hpx
          exact hnd.1 (by
            have hpx2 : p.id = x := by simpa using hpx
            rw [hx, ← hpx2]
            exact List.mem_map_of_mem (fun p => p.id) hp)
        rw [ht]
        rfl
      · have hfa : (a.id == x) = false := by
          rw [beq_eq_false_iff_ne]
          intro he
          exact hnd.1 (by
            rw [he, ← hx]
            exact List.mem_map_of_mem (fun p => p.id) h)
        rw [List.filter_cons]
        simp only [hfa, Bool.false_eq_true, if_false]
        exact ih hnd.2 h

/-- C8 (confirmed): with a `pdf_files` row for the id, `forget_pdf` deletes
exactly the memories whose source is `"pdf:" + filename` (their number is
the claimed `N`, witnessed by the length equation) and exactly the one
record of that id (given that ids are unique, as the PRIMARY KEY makes
them), leaving everything else unchanged; with no row for the id it
reports `notFound` and changes nothing. -/
theorem forget_pdf_spec (db : DB) (pdfId : Nat) :
    (db.pdf_files.find? (fun r => r.id == pdfId) = none →
      forget_pdf db pdfId = (ForgetPdfResult.notFound pdfId, db)) ∧
    (∀ r, db.pdf_files.find? (fun r => r.id == pdfId) = some r →
      (forget_pdf db pdfId).1 = ForgetPdfResult.forgot r.filename ∧
      (forget_pdf db pdfId).2.memory
        = db.memory.filter (fun m => m.source != "pdf:" ++ r.filename) ∧
      (forget_pdf db pdfId).2.pdf_files
        = db.pdf_files.filter (fun p => p.id != pdfId) ∧
      (forget_pdf db pdfId).2.memory.length
          + (db.memory.filter (fun m => m.source == "pdf:" ++ r.filename)).length
        = db.memory.length ∧
      ((db.pdf_files.map (fun p => p.id)).Nodup →
        (forget_pdf db pdfId).2.pdf_files.length + 1 = db.pdf_files.length)) := by
  constructor
  · intro hnone
    unfold forget_pdf
    rw [hnone]
  · intro r hfind
    have hmem : r ∈ db.pdf_files := List.mem_of_find?_eq_some hfind
    have hid : r.id = pdfId := by
      have := List.find?_some hfind
      simpa using this
    unfold forget_pdf
    rw [hfind]
    refine ⟨rfl, rfl, rfl, ?_, ?_⟩
    · have hpart :=
        @List.length_eq_length_filter_add _ db.memory
          (fun m => m.source == "pdf:" ++ r.filename)
      have hbne : db.memory.filter (fun m => m.source != "pdf:" ++ r.filename)
          = db.memory.filter (fun m => !(m.source == "pdf:" ++ r.filename)) := rfl
      simp only [hbne]
      omega
    · intro hnd
      have hone := filter_id_count_one hnd hmem hid
      have hpart :=
        @List.length_eq_length_filter_add _ db.pdf_files
          (fun p => p.id == pdfId)
      have hbne : db.pdf_files.filter (fun p => p.id != pdfId)
          = db.pdf_files.filter (fun p => !(p.id == pdfId)) := rfl
      simp only [hbne]
      omega

/-! ## C9: ingestion -/

lemma foldl_save_pdf_files (src : String) (chunks : List String) (db : DB) :
    (chunks.foldl (fun d c => _save_memory d src c) db).pdf_files = db.pdf_files := by
  induction chunks generalizing db with
  | nil => rfl
  | cons c cs ih => exact ih (_save_memory db src c)

lemma foldl_save_memory_map (src : String) (chunks : List String) (db : DB) :
    ((chunks.foldl (fun d c => _save_memory d src c) db).memory).map
        (fun m => (m.source, m.content))
      = db.memory.map (fun m => (m.source, m.content)) ++ chunks.map (fun c => (src, c)) := by
  induction chunks generalizing db with
  | nil => simp
  | cons c cs ih =>
      rw [List.foldl_cons, ih (_save_memory db src c)]
      show (db.memory ++ [(⟨nextId db.memory, src, c⟩ : Memory)]).map
            (fun m => (m.source, m.content)) ++ cs.map (fun c => (src, c))
          = db.memory.map (fun m => (m.source, m.content)) ++ (c :: cs).map (fun c => (src, c))
      rw [List.map_append, List.map_cons, List.append_assoc]
      rfl

/-- C9 (confirmed): on the success path, ingestion splits every page on
newlines, strips each line, drops the lines that are empty after
stripping, stores each survivor as one memory with source
`"pdf:" + basename`, then registers exactly one pdf record, and reports
the chunk count (`0` included); the claimed example pages `"A\n\nB"` and
`""` produce exactly the two chunks `"A"` and `"B"`. -/
theorem ingest_pdf_spec (db : DB) (pdfPath : String) (pages : List String) :
    (ingest_pdf db pdfPath pages).1
        = "Ingested " ++ toString (pages.flatMap pageChunks).length
            ++ " text chunks from " ++ pdfPath ∧
    ((ingest_pdf db pdfPath pages).2.memory.map (fun m => (m.source, m.content))
        = db.memory.map (fun m => (m.source, m.content))
          ++ (pages.flatMap pageChunks).map (fun c => ("pdf:" ++ basename pdfPath, c))) ∧
    (ingest_pdf db pdfPath pages).2.pdf_files
        = db.pdf_files ++ [⟨nextPdfId db.pdf_files, basename pdfPath⟩] ∧
    pageChunks "A\n\nB" = ["A", "B"] ∧
    pageChunks "" = [] ∧
    (["A\n\nB", ""].flatMap pageChunks).length = 2 := by
  refine ⟨rfl, ?_, ?_, by decide, by decide, by decide⟩
  · show ((_save_pdf_record ((pages.flatMap pageChunks).foldl
        (fun d c => _save_memory d ("pdf:" ++ basename pdfPath) c) db) pdfPath).memory).map
          (fun m => (m.source, m.content)) = _
    rw [show ∀ dbx : DB, (_save_pdf_record dbx pdfPath).memory = dbx.memory from fun _ => rfl]
    exact foldl_save_memory_map ("pdf:" ++ basename pdfPath) (pages.flatMap pageChunks) db
  · show (_save_pdf_record ((pages.flatMap pageChunks).foldl
        (fun d c => _save_memory d ("pdf:" ++ basename pdfPath) c) db) pdfPath).pdf_files = _
    unfold _save_pdf_record
    rw [foldl_save_pdf_files]

/-! ## C10: two documents with the same basename -/

lemma ingest_pdf_files_eq (db : DB) (p : String) (pg : List String) :
    (ingest_pdf db p pg).2.pdf_files
      = db.pdf_files ++ [⟨nextPdfId db.pdf_files, basename p⟩] := by
  show (_save_pdf_record ((pg.flatMap pageChunks).foldl
      (fun d c => _save_memory d ("pdf:" ++ basename p) c) db) p).pdf_files = _
  unfold _save_pdf_record
  rw [foldl_save_pdf_files]

lemma find?_fresh_append (l tail : List PdfFile) (x : Nat)
    (hfresh : ∀ r ∈ l, r.id ≠ x) :
    (l ++ tail).find? (fun r => r.id == x) = tail.find? (fun r => r.id == x) := by
  rw [List.find?_append, List.find?_eq_none.mpr (by
    intro r hr
    simpa using hfresh r hr)]
  rfl

lemma filter_match_of_filter_not (l : List Memory) (x : String) :
    (l.filter (fun m => m.source != x)).filter (fun m => m.source == x) = [] := by
  rw [List.filter_filter]
  apply List.filter_eq_nil_iff.mpr
  intro m _hm
  cases hb : (m.source == x) <;> simp [hb, bne]

/-- C10 (confirmed): ingesting two documents whose paths share one
basename `f` leaves two `pdf_files` records with filename `f` (and
consecutive fresh ids); `forget_pdf` on either id succeeds and, because
the cascade is keyed on the string `"pdf:" + f` alone, deletes the memory
chunks of *both* ingestions, while the other record survives. -/
theorem ingest_same_basename_forget_pdf (db : DB) (p1 p2 : String)
    (pg1 pg2 : List String) (hb : basename p2 = basename p1) :
    (ingest_pdf (ingest_pdf db p1 pg1).2 p2 pg2).2.pdf_files
        = db.pdf_files ++ [⟨nextPdfId db.pdf_files, basename p1⟩,
            ⟨nextPdfId db.pdf_files + 1, basename p1⟩] ∧
    (forget_pdf (ingest_pdf (ingest_pdf db p1 pg1).2 p2 pg2).2
        (nextPdfId db.pdf_files)).1 = ForgetPdfResult.forgot (basename p1) ∧
    ((forget_pdf (ingest_pdf (ingest_pdf db p1 pg1).2 p2 pg2).2
        (nextPdfId db.pdf_files)).2.memory.filter
          (fun m => m.source == "pdf:" ++ basename p1)) = [] ∧
    (⟨nextPdfId db.pdf_files + 1, basename p1⟩ : PdfFile)
        ∈ (forget_pdf (ingest_pdf (ingest_pdf db p1 pg1).2 p2 pg2).2
            (nextPdfId db.pdf_files)).2.pdf_files ∧
    (forget_pdf (ingest_pdf (ingest_pdf db p1 pg1).2 p2 pg2).2
        (nextPdfId db.pdf_files + 1)).1 = ForgetPdfResult.forgot (basename p1) ∧
    ((forget_pdf (ingest_pdf (ingest_pdf db p1 pg1).2 p2 pg2).2
        (nextPdfId db.pdf_files + 1)).2.memory.filter
          (fun m => m.source == "pdf:" ++ basename p1)) = [] ∧
    (⟨nextPdfId db.pdf_files, basename p1⟩ : PdfFile)
        ∈ (forget_pdf (ingest_pdf (ingest_pdf db p1 pg1).2 p2 pg2).2
            (nextPdfId db.pdf_files + 1)).2.pdf_files := by
  have h1 : (ingest_pdf db p1 pg1).2.pdf_files
      = db.pdf_files ++ [⟨nextPdfId db.pdf_files, basename p1⟩] :=
    ingest_pdf_files_eq db p1 pg1
  have h2 : (ingest_pdf (ingest_pdf db p1 pg1).2 p2 pg2).2.pdf_files
      = db.pdf_files ++ [⟨nextPdfId db.pdf_files, basename p1⟩,
          ⟨nextPdfId db.pdf_files + 1, basename p1⟩] := by
    rw [ingest_pdf_files_eq (ingest_pdf db p1 pg1).2 p2 pg2, h1, hb,
      nextPdfId_append db.pdf_files (basename p1), List.append_assoc]
    rfl
  have hfr1 : ∀ r ∈ db.pdf_files, r.id ≠ nextPdfId db.pdf_files :=
    fun r hr => Nat.ne_of_lt (pdf_id_lt_nextPdfId hr)
  have hfr2 : ∀ r ∈ db.pdf_files, r.id ≠ nextPdfId db.pdf_files + 1 :=
    fun r hr => Nat.ne_of_lt (Nat.lt_succ_of_lt (pdf_id_lt_nextPdfId hr))
  have hne : nextPdfId db.pdf_files + 1 ≠ nextPdfId db.pdf_files := Nat.succ_ne_self _
  have hfind1 : (ingest_pdf (ingest_pdf db p1 pg1).2 p2 pg2).2.pdf_files.find?
      (fun r => r.id == nextPdfId db.pdf_files)
        = some ⟨nextPdfId db.pdf_files, basename p1⟩ := by
    rw [h2, find?_fresh_append _ _ _ hfr1]
    exact List.find?_cons_of_pos _ (by simp)
  have hfind2 : (ingest_pdf (ingest_pdf db p1 pg1).2 p2 pg2).2.pdf_files.find?
      (fun r => r.id == nextPdfId db.pdf_files + 1)
        = some ⟨nextPdfId db.pdf_files + 1, basename p1⟩ := by
    rw [h2, find?_fresh_append _ _ _ hfr2]
    rw [List.find?_cons_of_neg _ (by simpa using Ne.symm hne)]
    exact List.find?_cons_of_pos _ (by simp)
  refine ⟨h2, ?_⟩
  unfold forget_pdf
  rw [hfind1, hfind2]
  refine ⟨rfl, filter_match_of_filter_not _ _, ?_, rfl, filter_match_of_filter_not _ _, ?_⟩
  · apply List.mem_filter.mpr
    refine ⟨by rw [h2]; exact List.mem_append.mpr (Or.inr (by simp)), by simpa using hne⟩
  · apply List.mem_filter.mpr
    refine ⟨by rw [h2]; exact List.mem_append.mpr (Or.inr (by simp)), by simpa using Ne.symm hne⟩

/-! ## The three branches of ask -/

lemma ask_on_hit (w : String → ℚ) (adapter : String → Option String) (db : DB) (q s : String)
    (h : _search_local_memory w (_load_all_memory db) q = Except.ok (some s)) (hs : s ≠ "") :
    ask w adapter db q = Except.ok (s, db, false) := by
  unfold ask
  rw [h]
  simp [truthy, bne_iff_ne, hs]

lemma ask_on_miss_online (w : String → ℚ) (adapter : String → Option String) (db : DB)
    (q a : String) (la : Option String)
    (h : _search_local_memory w (_load_all_memory db) q = Except.ok la)
    (hla : truthy la = false) (ha : adapter q = some a) (hne : a ≠ "") :
    ask w adapter db q = Except.ok (a, _save_memory db "online" a, true) := by
  unfold ask
  rw [h]
  simp only [hla, Bool.false_eq_true, if_false, ha]
  simp [truthy, bne_iff_ne, hne]

lemma ask_on_miss_nothing (w : String → ℚ) (adapter : String → Option String) (db : DB)
    (q : String) (la : Option String)
    (h : _search_local_memory w (_load_all_memory db) q = Except.ok la)
    (hla : truthy la = false) (ho : truthy (adapter q) = false) :
    ask w adapter db q = Except.ok (sentinel, db, true) := by
  unfold ask
  rw [h]
  simp [hla, ho]

lemma argmaxFrom_snd_mem (w : String → ℚ) (V : Finset String) (q : String) :
    ∀ (rest : List String) (i : Nat) (best : Nat × String),
      (argmaxFrom w V q rest i best).2 = best.2 ∨ (argmaxFrom w V q rest i best).2 ∈ rest := by
  intro rest
  induction rest with
  | nil => intro i best; exact Or.inl rfl
  | cons d t ih =>
      intro i best
      have he : argmaxFrom w V q (d :: t) i best
          = argmaxFrom w V q t (i + 1) (if simGTb w V q d best.2 then (i, d) else best) := rfl
      by_cases hc : simGTb w V q d best.2 = true
      · rw [he, if_pos hc]
        rcases ih (i + 1) (i, d) with h | h
        · right
          rw [h]
          exact List.mem_cons_self d t
        · right
          exact List.mem_cons_of_mem d h
      · rw [he, if_neg hc]
        rcases ih (i + 1) best with h | h
        · left
          exact h
        · right
          exact List.mem_cons_of_mem d h

lemma searchLocal_ok_cases (w : String → ℚ) (memories : List String) (q : String)
    (h : memories = [] ∨ vocabF (memories ++ [q]) ≠ ∅) :
    ∃ la, _search_local_memory w memories q = Except.ok la ∧
      ∀ s, la = some s → s ∈ memories := by
  cases memories with
  | nil => exact ⟨none, rfl, fun s hs => by cases hs⟩
  | cons m rest =>
      have hv : ¬ vocabF ((m :: rest) ++ [q]) = ∅ := by
        rcases h with h | h
        · cases h
        · exact h
      simp only [_search_local_memory]
      rw [if_neg hv]
      by_cases hth : simThb w (vocabF ((m :: rest) ++ [q])) q
          (argmaxFrom w (vocabF ((m :: rest) ++ [q])) q rest 1 (0, m)).2 = true
      · rw [if_pos hth]
        refine ⟨some (argmaxFrom w (vocabF ((m :: rest) ++ [q])) q rest 1 (0, m)).2, rfl, ?_⟩
        intro s hs
        have hs2 : (argmaxFrom w (vocabF ((m :: rest) ++ [q])) q rest 1 (0, m)).2 = s :=
          Option.some.inj hs
        rw [← hs2]
        rcases argmaxFrom_snd_mem w (vocabF ((m :: rest) ++ [q])) q rest 1 (0, m) with h2 | h2
        · rw [h2]
          exact List.mem_cons_self m rest
        · exact List.mem_cons_of_mem m h2
      · rw [if_neg hth]
        exact ⟨none, rfl, fun s hs => by cases hs⟩

/-! ## C6: the write-back -/

/-- C6 (confirmed): when `ask` misses locally (no truthy best match) and
the adapter returns a non-empty answer, exactly one new memory with source
`"online"` and content equal to that answer is appended to the store in
the returned state, and the answer is returned; on a truthy local hit the
store is returned unchanged and the adapter is not invoked. -/
theorem ask_writeback_spec (w : String → ℚ) (adapter : String → Option String)
    (db : DB) (q : String) :
    (∀ la a, _search_local_memory w (_load_all_memory db) q = Except.ok la →
      truthy la = false → adapter q = some a → a ≠ "" →
      ask w adapter db q = Except.ok
        (a, { db with memory := db.memory ++ [⟨nextId db.memory, "online", a⟩] }, true)) ∧
    (∀ s, _search_local_memory w (_load_all_memory db) q = Except.ok (some s) → s ≠ "" →
      ask w adapter db q = Except.ok (s, db, false)) :=
  ⟨fun la a h1 h2 h3 h4 => ask_on_miss_online w adapter db q a la h1 h2 h3 h4,
   fun s h1 h2 => ask_on_hit w adapter db q s h1 h2⟩

unseal Rat.add Rat.mul in
/-- C6 witness: on the empty store the adapter answer `"paris"` is written
back with id 1 and source `"online"`; on a store already holding
`"hello world"`, asking `"hello world"` is a local hit that leaves the
store unchanged. -/
theorem ask_writeback_spec_witness :
    ask (fun _ => 1) (fun _ => some "paris") emptyDB "capital"
      = Except.ok ("paris", ⟨[⟨1, "online", "paris"⟩], []⟩, true) ∧
    ask (fun _ => 1) (fun _ => none) ⟨[⟨1, "user", "hello world"⟩], []⟩ "hello world"
      = Except.ok ("hello world", ⟨[⟨1, "user", "hello world"⟩], []⟩, false) :=
  ⟨(ask_writeback_spec (fun _ => 1) (fun _ => some "paris") emptyDB "capital").1
      none "paris" rfl rfl rfl (by decide),
   (ask_writeback_spec (fun _ => 1) (fun _ => none) ⟨[⟨1, "user", "hello world"⟩], []⟩
      "hello world").2 "hello world" (by decide) (by decide)⟩

/-! ## C5: ask never raises -/

/-- C5 (corrected), amended claim: provided the store is empty or the
vocabulary fitted on the stored contents plus the query is non-empty,
`ask` never fails: it returns either a truthy local match, the adapter's
answer, or the fixed sentinel.  (Without that proviso the TF-IDF
vectorizer raises `ValueError` and `ask` propagates it, see the
counterexample.) -/
theorem ask_no_raise (w : String → ℚ) (adapter : String → Option String) (db : DB)
    (q : String) (h : db.memory = [] ∨ vocabF (_load_all_memory db ++ [q]) ≠ ∅) :
    ∃ ans db2 invoked, ask w adapter db q = Except.ok (ans, db2, invoked) ∧
      (ans ∈ _load_all_memory db ∨ adapter q = some ans ∨ ans = sentinel) := by
  have h2 : _load_all_memory db = [] ∨ vocabF (_load_all_memory db ++ [q]) ≠ ∅ := by
    rcases h with h | h
    · left
      show db.memory.map (fun m => m.content) = []
      rw [h]
      rfl
    · right
      exact h
  obtain ⟨la, hla, hmem⟩ := searchLocal_ok_cases w (_load_all_memory db) q h2
  by_cases ht : truthy la = true
  · cases la with
    | none => simp [truthy] at ht
    | some s =>
        have hs : s ≠ "" := by simpa [truthy, bne_iff_ne] using ht
        exact ⟨s, db, false, ask_on_hit w adapter db q s hla hs, Or.inl (hmem s rfl)⟩
  · have htf : truthy la = false := by simpa using ht
    cases ho : adapter q with
    | some a =>
        by_cases ha : a = ""
        · refine ⟨sentinel, db, true,
            ask_on_miss_nothing w adapter db q la hla htf (by rw [ho, ha]; rfl),
            Or.inr (Or.inr rfl)⟩
        · exact ⟨a, _save_memory db "online" a, true,
            ask_on_miss_online w adapter db q a la hla htf ho ha,
            Or.inr (Or.inl rfl)⟩
    | none =>
        exact ⟨sentinel, db, true,
          ask_on_miss_nothing w adapter db q la hla htf (by rw [ho]; rfl),
          Or.inr (Or.inr rfl)⟩

/-- C5 witness: a store holding `"hello world"` and the query `"hi"` give
a non-empty vocabulary, so `ask` returns without raising even though both
lookups miss. -/
theorem ask_no_raise_witness :
    ∃ ans db2 invoked,
      ask (fun _ => 1) (fun _ => none) ⟨[⟨1, "user", "hello world"⟩], []⟩ "hi"
        = Except.ok (ans, db2, invoked) ∧
      (ans ∈ _load_all_memory ⟨[⟨1, "user", "hello world"⟩], []⟩ ∨
        (fun _ => none : String → Option String) "hi" = some ans ∨ ans = sentinel) :=
  ask_no_raise (fun _ => 1) (fun _ => none) ⟨[⟨1, "user", "hello world"⟩], []⟩ "hi"
    (Or.inr (by decide))

/-- C5 counterexample: with the store holding only `"?"` and the query
`"x"`, no document yields a single word token of length at least two, the
fitted vocabulary is empty, and `ask` propagates scikit-learn's
`ValueError` instead of returning an answer or the sentinel — `ask` does
raise. -/
theorem ask_raises_on_empty_vocab :
    ask (fun _ => 1) (fun _ => none) ⟨[⟨1, "user", "?"⟩], []⟩ "x"
      = Except.error emptyVocabMsg := by
  decide

/-! ## C2: the write-back learning loop -/

/-- C2 (corrected), amended claim: after a local miss with a truthy
adapter answer, the answer is stored, so it is part of the corpus the next
`ask` with the same query ranks over; that second call is a LocalLookup
hit that returns without invoking the (possibly failing) adapter
*provided* the ranking of the updated corpus produces a truthy best match
above the `0.2` threshold — which the written-back answer does not
guarantee for every query (see the counterexample, where the re-ask calls
the adapter again). -/
theorem writeback_locally_present (w w2 : String → ℚ)
    (adapter adapter2 : String → Option String) (db : DB) (q a : String)
    (la : Option String)
    (h1 : _search_local_memory w (_load_all_memory db) q = Except.ok la)
    (h2 : truthy la = false) (h3 : adapter q = some a) (h4 : a ≠ "") :
    ask w adapter db q = Except.ok (a, _save_memory db "online" a, true) ∧
    _load_all_memory (_save_memory db "online" a) = _load_all_memory db ++ [a] ∧
    (∀ s, _search_local_memory w2 (_load_all_memory (_save_memory db "online" a)) q
        = Except.ok (some s) → s ≠ "" →
      ask w2 adapter2 (_save_memory db "online" a) q
        = Except.ok (s, _save_memory db "online" a, false)) := by
  refine ⟨ask_on_miss_online w adapter db q a la h1 h2 h3 h4, ?_, ?_⟩
  · show (db.memory ++ [(⟨nextId db.memory, "online", a⟩ : Memory)]).map (fun m => m.content)
        = db.memory.map (fun m => m.content) ++ [a]
    rw [List.map_append]
    rfl
  · intro s hs hne
    exact ask_on_hit w2 adapter2 (_save_memory db "online" a) q s hs hne

unseal Rat.add Rat.mul in
/-- C2 witness: querying `"hello world"` on the empty store stores the
adapter answer `"hello world"`, and the second identical query is a local
hit (similarity 1 > 0.2) that returns it although the stubbed adapter now
fails. -/
theorem writeback_locally_present_witness :
    (ask (fun _ => 1) (fun _ => some "hello world") emptyDB "hello world"
        = Except.ok ("hello world", _save_memory emptyDB "online" "hello world", true) ∧
      _load_all_memory (_save_memory emptyDB "online" "hello world")
        = _load_all_memory emptyDB ++ ["hello world"] ∧
      (∀ s, _search_local_memory (fun _ => 1)
          (_load_all_memory (_save_memory emptyDB "online" "hello world")) "hello world"
            = Except.ok (some s) → s ≠ "" →
        ask (fun _ => 1) (fun _ => none) (_save_memory emptyDB "online" "hello world")
            "hello world"
          = Except.ok (s, _save_memory emptyDB "online" "hello world", false))) ∧
    _search_local_memory (fun _ => 1)
        (_load_all_memory (_save_memory emptyDB "online" "hello world")) "hello world"
      = Except.ok (some "hello world") :=
  ⟨writeback_locally_present (fun _ => 1) (fun _ => 1) (fun _ => some "hello world")
      (fun _ => none) emptyDB "hello world" "hello world" none rfl rfl rfl (by decide),
   by decide⟩

unseal Rat.add Rat.mul in
/-- C2 counterexample: the first `ask` for `"qqzz"` misses locally and
writes back the adapter answer `"aa bb"`; asking the same query again is
*not* a LocalLookup hit — the stored answer shares no token with the
query, its similarity is 0 ≤ 0.2, and the second call invokes the adapter
again (third component `true`) and, with the adapter stubbed to fail,
returns the sentinel instead of the answer. -/
theorem writeback_below_threshold_cex :
    ask (fun _ => 1) (fun _ => some "aa bb") emptyDB "qqzz"
      = Except.ok ("aa bb", ⟨[⟨1, "online", "aa bb"⟩], []⟩, true) ∧
    ask (fun _ => 1) (fun _ => none) ⟨[⟨1, "online", "aa bb"⟩], []⟩ "qqzz"
      = Except.ok (sentinel, ⟨[⟨1, "online", "aa bb"⟩], []⟩, true) :=
  ⟨by decide, by decide⟩

/-! ## Properties of the TF-IDF inner products -/

lemma dotW_nonneg (w : String → ℚ) (V : Finset String) (d e : String) :
    0 ≤ dotW w V d e := by
  apply Finset.sum_nonneg
  intro t _
  positivity

lemma dotW_sq_le (w : String → ℚ) (V : Finset String) (d e : String) :
    dotW w V d e ^ 2 ≤ dotW w V d d * dotW w V e e := by
  have h := Finset.sum_mul_sq_le_sq_mul_sq V (fun t => (tcount d t : ℚ) * w t)
    (fun t => (tcount e t : ℚ) * w t)
  have e1 : dotW w V d e = ∑ t ∈ V, ((tcount d t : ℚ) * w t) * ((tcount e t : ℚ) * w t) :=
    Finset.sum_congr rfl (fun t _ => by ring)
  have e2 : dotW w V d d = ∑ t ∈ V, ((tcount d t : ℚ) * w t) ^ 2 :=
    Finset.sum_congr rfl (fun t _ => by ring)
  have e3 : dotW w V e e = ∑ t ∈ V, ((tcount e t : ℚ) * w t) ^ 2 :=
    Finset.sum_congr rfl (fun t _ => by ring)
  rw [e1, e2, e3]
  exact h

lemma dotW_pos_of_ne (w : String → ℚ) (V : Finset String) (d e : String)
    (h : dotW w V d e ≠ 0) : 0 < dotW w V d e :=
  lt_of_le_of_ne (dotW_nonneg w V d e) (Ne.symm h)

lemma cosSim_zero_of (w : String → ℚ) (V : Finset String) (q d : String)
    (h : dotW w V d d = 0 ∨ dotW w V q q = 0) : cosSim w V q d = 0 := by
  unfold cosSim
  rw [if_pos h]

lemma cosSim_eq (w : String → ℚ) (V : Finset String) (q d : String)
    (hd : dotW w V d d ≠ 0) (hq : dotW w V q q ≠ 0) :
    cosSim w V q d
      = (dotW w V q d : ℝ) / (Real.sqrt (dotW w V d d) * Real.sqrt (dotW w V q q)) := by
  unfold cosSim
  rw [if_neg (by push_neg; exact ⟨hd, hq⟩)]

lemma cosSim_nonneg (w : String → ℚ) (V : Finset String) (q d : String) :
    0 ≤ cosSim w V q d := by
  unfold cosSim
  split
  · exact le_refl 0
  · apply div_nonneg
    · exact_mod_cast dotW_nonneg w V q d
    · exact mul_nonneg (Real.sqrt_nonneg _) (Real.sqrt_nonneg _)

lemma cosSim_le_one (w : String → ℚ) (V : Finset String) (q d : String) :
    cosSim w V q d ≤ 1 := by
  unfold cosSim
  split
  · exact zero_le_one
  · rename_i hn
    push_neg at hn
    obtain ⟨hd, hq⟩ := hn
    have hdpos : (0:ℝ) < (dotW w V d d : ℝ) := by
      exact_mod_cast dotW_pos_of_ne w V d d hd
    have hqpos : (0:ℝ) < (dotW w V q q : ℝ) := by
      exact_mod_cast dotW_pos_of_ne w V q q hq
    rw [div_le_one (mul_pos (Real.sqrt_pos.mpr hdpos) (Real.sqrt_pos.mpr hqpos)),
      ← Real.sqrt_mul (le_of_lt hdpos)]
    rw [Real.le_sqrt (by exact_mod_cast dotW_nonneg w V q d)
      (mul_nonneg (le_of_lt hdpos) (le_of_lt hqpos))]
    have h := dotW_sq_le w V q d
    have hcast : ((dotW w V q d : ℚ) : ℝ) ^ 2 ≤ ((dotW w V q q : ℚ) : ℝ) * ((dotW w V d d : ℚ) : ℝ) := by
      exact_mod_cast h
    calc ((dotW w V q d : ℚ) : ℝ) ^ 2
        ≤ ((dotW w V q q : ℚ) : ℝ) * ((dotW w V d d : ℚ) : ℝ) := hcast
      _ = ((dotW w V d d : ℚ) : ℝ) * ((dotW w V q q : ℚ) : ℝ) := mul_comm _ _

lemma cosSim_self (w : String → ℚ) (V : Finset String) (q : String)
    (hq : dotW w V q q ≠ 0) : cosSim w V q q = 1 := by
  have hpos : (0:ℝ) < (dotW w V q q : ℝ) := by
    exact_mod_cast dotW_pos_of_ne w V q q hq
  rw [cosSim_eq w V q q hq hq, Real.mul_self_sqrt (le_of_lt hpos)]
  exact div_self (ne_of_gt hpos)

/-! ## Bridges between the rational decisions and the real similarities -/

lemma simGTb_iff (w : String → ℚ) (V : Finset String) (q d e : String) :
    simGTb w V q d e = true ↔ cosSim w V q e < cosSim w V q d := by
  unfold simGTb
  dsimp only
  split_ifs with h1 h2
  · simp only [Bool.false_eq_true, false_iff, not_lt]
    rw [cosSim_zero_of w V q d (by tauto)]
    exact cosSim_nonneg w V q e
  · push_neg at h1
    obtain ⟨hq, hd⟩ := h1
    rw [decide_eq_true_eq, cosSim_zero_of w V q e (Or.inl h2),
      cosSim_eq w V q d hd hq]
    have hdpos : (0:ℝ) < (dotW w V d d : ℝ) := by exact_mod_cast dotW_pos_of_ne w V d d hd
    have hqpos : (0:ℝ) < (dotW w V q q : ℝ) := by exact_mod_cast dotW_pos_of_ne w V q q hq
    have hs : (0:ℝ) < Real.sqrt (dotW w V d d) * Real.sqrt (dotW w V q q) :=
      mul_pos (Real.sqrt_pos.mpr hdpos) (Real.sqrt_pos.mpr hqpos)
    rw [div_pos_iff_of_pos_right hs]
    exact_mod_cast Iff.rfl
  · push_neg at h1
    obtain ⟨hq, hd⟩ := h1
    rw [decide_eq_true_eq, cosSim_eq w V q e h2 hq, cosSim_eq w V q d hd hq]
    have hdpos : (0:ℝ) < (dotW w V d d : ℝ) := by exact_mod_cast dotW_pos_of_ne w V d d hd
    have hqpos : (0:ℝ) < (dotW w V q q : ℝ) := by exact_mod_cast dotW_pos_of_ne w V q q hq
    have hepos : (0:ℝ) < (dotW w V e e : ℝ) := by exact_mod_cast dotW_pos_of_ne w V e e h2
    have hde : (0:ℝ) ≤ (dotW w V q d : ℝ) := by exact_mod_cast dotW_nonneg w V q d
    have hee : (0:ℝ) ≤ (dotW w V q e : ℝ) := by exact_mod_cast dotW_nonneg w V q e
    rw [div_lt_div_iff₀ (mul_pos (Real.sqrt_pos.mpr hepos) (Real.sqrt_pos.mpr hqpos))
      (mul_pos (Real.sqrt_pos.mpr hdpos) (Real.sqrt_pos.mpr hqpos))]
    constructor
    · intro h
      have h2R : ((dotW w V q e : ℚ) : ℝ) ^ 2 * (dotW w V d d : ℝ)
          < ((dotW w V q d : ℚ) : ℝ) ^ 2 * (dotW w V e e : ℝ) := by exact_mod_cast h
      have hsq : ((dotW w V q e : ℚ) : ℝ) * Real.sqrt (dotW w V d d)
          < ((dotW w V q d : ℚ) : ℝ) * Real.sqrt (dotW w V e e) := by
        rw [← pow_lt_pow_iff_left₀ (mul_nonneg hee (Real.sqrt_nonneg _))
          (mul_nonneg hde (Real.sqrt_nonneg _)) (by norm_num : (2:ℕ) ≠ 0)]
        rw [mul_pow, mul_pow, Real.sq_sqrt (le_of_lt hdpos), Real.sq_sqrt (le_of_lt hepos)]
        exact h2R
      calc (dotW w V q e : ℝ) * (Real.sqrt (dotW w V d d) * Real.sqrt (dotW w V q q))
          = ((dotW w V q e : ℝ) * Real.sqrt (dotW w V d d)) * Real.sqrt (dotW w V q q) := by ring
        _ < ((dotW w V q d : ℝ) * Real.sqrt (dotW w V e e)) * Real.sqrt (dotW w V q q) := by
            exact mul_lt_mul_of_pos_right hsq (Real.sqrt_pos.mpr hqpos)
        _ = (dotW w V q d : ℝ) * (Real.sqrt (dotW w V e e) * Real.sqrt (dotW w V q q)) := by ring
    · intro h
      have hsq : ((dotW w V q e : ℚ) : ℝ) * Real.sqrt (dotW w V d d)
          < ((dotW w V q d : ℚ) : ℝ) * Real.sqrt (dotW w V e e) := by
        have := mul_lt_mul_of_pos_right h (inv_pos.mpr (Real.sqrt_pos.mpr hqpos))
        calc ((dotW w V q e : ℚ) : ℝ) * Real.sqrt (dotW w V d d)
            = (dotW w V q e : ℝ) * (Real.sqrt (dotW w V d d) * Real.sqrt (dotW w V q q))
                * (Real.sqrt (dotW w V q q))⁻¹ := by
              field_simp
              ring
          _ < (dotW w V q d : ℝ) * (Real.sqrt (dotW w V e e) * Real.sqrt (dotW w V q q))
                * (Real.sqrt (dotW w V q q))⁻¹ := this
          _ = ((dotW w V q d : ℚ) : ℝ) * Real.sqrt (dotW w V e e) := by
              field_simp
              ring
      have h2R : ((dotW w V q e : ℚ) : ℝ) ^ 2 * (dotW w V d d : ℝ)
          < ((dotW w V q d : ℚ) : ℝ) ^ 2 * (dotW w V e e : ℝ) := by
        rw [show ((dotW w V q e : ℚ) : ℝ) ^ 2 * (dotW w V d d : ℝ)
            = (((dotW w V q e : ℚ) : ℝ) * Real.sqrt (dotW w V d d)) ^ 2 by
          rw [mul_pow, Real.sq_sqrt (le_of_lt hdpos)]]
        rw [show ((dotW w V q d : ℚ) : ℝ) ^ 2 * (dotW w V e e : ℝ)
            = (((dotW w V q d : ℚ) : ℝ) * Real.sqrt (dotW w V e e)) ^ 2 by
          rw [mul_pow, Real.sq_sqrt (le_of_lt hepos)]]
        rw [pow_lt_pow_iff_left₀ (mul_nonneg hee (Real.sqrt_nonneg _))
          (mul_nonneg hde (Real.sqrt_nonneg _)) (by norm_num : (2:ℕ) ≠ 0)]
        exact hsq
      exact_mod_cast h2R

lemma simThb_iff (w : String → ℚ) (V : Finset String) (q d : String) :
    simThb w V q d = true ↔ 1 / 5 < cosSim w V q d := by
  unfold simThb
  dsimp only
  split_ifs with h1
  · simp only [Bool.false_eq_true, false_iff, not_lt]
    rw [cosSim_zero_of w V q d (by tauto)]
    norm_num
  · push_neg at h1
    obtain ⟨hq, hd⟩ := h1
    rw [decide_eq_true_eq, cosSim_eq w V q d hd hq]
    have hdposQ : 0 < dotW w V d d := dotW_pos_of_ne w V d d hd
    have hqposQ : 0 < dotW w V q q := dotW_pos_of_ne w V q q hq
    have hdpos : (0:ℝ) < (dotW w V d d : ℝ) := by exact_mod_cast hdposQ
    have hqpos : (0:ℝ) < (dotW w V q q : ℝ) := by exact_mod_cast hqposQ
    have hs : (0:ℝ) < Real.sqrt (dotW w V d d) * Real.sqrt (dotW w V q q) :=
      mul_pos (Real.sqrt_pos.mpr hdpos) (Real.sqrt_pos.mpr hqpos)
    rw [div_lt_div_iff₀ (by norm_num : (0:ℝ) < 5) hs, one_mul,
      ← Real.sqrt_mul (le_of_lt hdpos)]
    constructor
    · intro h
      have hddQ : 0 < dotW w V q d := by nlinarith [dotW_nonneg w V q d]
      have hddR : (0:ℝ) < (dotW w V q d : ℝ) := by exact_mod_cast hddQ
      rw [mul_comm]
      rw [Real.sqrt_lt' (by positivity)]
      have : (dotW w V d d : ℝ) * (dotW w V q q : ℝ) < 25 * (dotW w V q d : ℝ) ^ 2 := by
        exact_mod_cast h
      nlinarith
    · intro h
      have hsq : (0:ℝ) < Real.sqrt ((dotW w V d d : ℝ) * (dotW w V q q : ℝ)) :=
        Real.sqrt_pos.mpr (mul_pos hdpos hqpos)
      have hddR : (0:ℝ) < (dotW w V q d : ℝ) := by nlinarith
      have h2 : (dotW w V d d : ℝ) * (dotW w V q q : ℝ) < ((dotW w V q d : ℝ) * 5) ^ 2 := by
        rw [show (dotW w V d d : ℝ) * (dotW w V q q : ℝ)
            = Real.sqrt ((dotW w V d d : ℝ) * (dotW w V q q : ℝ)) ^ 2 from
          (Real.sq_sqrt (by positivity)).symm]
        rw [pow_lt_pow_iff_left₀ (le_of_lt hsq) (by positivity) (by norm_num : (2:ℕ) ≠ 0)]
        exact h
      have h3 : (dotW w V d d : ℝ) * (dotW w V q q : ℝ) < 25 * (dotW w V q d : ℝ) ^ 2 := by
        nlinarith
      exact_mod_cast h3

/-! ## Correctness of the argmax scan -/

lemma argmaxFrom_invariant (w : String → ℚ) (V : Finset String) (q : String)
    (corpus : List String) :
    ∀ (rest : List String) (i : Nat) (best : Nat × String),
      corpus.drop i = rest → best.1 < i → best.1 < corpus.length →
      corpus.getD best.1 "" = best.2 →
      (∀ j, j < i → cosSim w V q (corpus.getD j "") ≤ cosSim w V q best.2) →
      (∀ j, j < best.1 → cosSim w V q (corpus.getD j "") < cosSim w V q best.2) →
      ((argmaxFrom w V q rest i best).1 < corpus.length ∧
       corpus.getD (argmaxFrom w V q rest i best).1 "" = (argmaxFrom w V q rest i best).2 ∧
       (∀ j, j < corpus.length →
         cosSim w V q (corpus.getD j "") ≤ cosSim w V q (argmaxFrom w V q rest i best).2) ∧
       (∀ j, j < (argmaxFrom w V q rest i best).1 →
         cosSim w V q (corpus.getD j "") < cosSim w V q (argmaxFrom w V q rest i best).2)) := by
  intro rest
  induction rest with
  | nil =>
      intro i best hdrop _hbi hbl hget hle hlt
      have hlen : corpus.length ≤ i := by
        have h := congrArg List.length hdrop
        rw [List.length_drop, List.length_nil] at h
        omega
      exact ⟨hbl, hget, fun j hj => hle j (lt_of_lt_of_le hj hlen), hlt⟩
  | cons d t ih =>
      intro i best hdrop hbi hbl hget hle hlt
      have hlen : corpus.length - i = t.length + 1 := by
        have h := congrArg List.length hdrop
        rwa [List.length_drop, List.length_cons] at h
      have hi_lt : i < corpus.length := by omega
      have hgetd : corpus.getD i "" = d := by
        have h0 : (corpus.drop i)[0]? = some d := by rw [hdrop]; simp
        rw [List.getElem?_drop] at h0
        rw [List.getD_eq_getElem?_getD, show i + 0 = i from rfl] at *
        rw [h0]
        rfl
      have hdrop2 : corpus.drop (i + 1) = t := by
        have h := List.drop_drop 1 i corpus
        rw [hdrop] at h
        exact h.symm
      have harg : argmaxFrom w V q (d :: t) i best
          = argmaxFrom w V q t (i + 1) (if simGTb w V q d best.2 then (i, d) else best) := rfl
      by_cases hc : simGTb w V q d best.2 = true
      · have hgt : cosSim w V q best.2 < cosSim w V q d := (simGTb_iff w V q d best.2).mp hc
        rw [harg, if_pos hc]
        apply ih (i + 1) (i, d) hdrop2 (Nat.lt_succ_self i) hi_lt hgetd
        · intro j hj
          rcases Nat.lt_succ_iff_lt_or_eq.mp hj with hj | hj
          · exact le_of_lt (lt_of_le_of_lt (hle j hj) hgt)
          · subst hj
            rw [hgetd]
        · intro j hj
          exact lt_of_le_of_lt (hle j hj) hgt
      · have hld : cosSim w V q d ≤ cosSim w V q best.2 :=
          not_lt.mp (fun hg => hc ((simGTb_iff w V q d best.2).mpr hg))
        rw [harg, if_neg hc]
        apply ih (i + 1) best hdrop2 (Nat.lt_succ_of_lt hbi) hbl hget
        · intro j hj
          rcases Nat.lt_succ_iff_lt_or_eq.mp hj with hj | hj
          · exact hle j hj
          · subst hj
            rw [hgetd]
            exact hld
        · exact hlt

lemma searchLocal_char (w : String → ℚ) (corpus : List String) (q : String)
    (hne : corpus ≠ []) (hv : vocabF (corpus ++ [q]) ≠ ∅) :
    ∃ i, i < corpus.length ∧
      (∀ j, j < corpus.length →
        cosSim w (vocabF (corpus ++ [q])) q (corpus.getD j "")
          ≤ cosSim w (vocabF (corpus ++ [q])) q (corpus.getD i "")) ∧
      (∀ j, j < i →
        cosSim w (vocabF (corpus ++ [q])) q (corpus.getD j "")
          < cosSim w (vocabF (corpus ++ [q])) q (corpus.getD i "")) ∧
      _search_local_memory w corpus q = Except.ok
        (if 1 / 5 < cosSim w (vocabF (corpus ++ [q])) q (corpus.getD i "") then
          some (corpus.getD i "") else none) := by
  cases corpus with
  | nil => exact absurd rfl hne
  | cons m rest =>
      obtain ⟨h1, h2, h3, h4⟩ := argmaxFrom_invariant w (vocabF ((m :: rest) ++ [q])) q
        (m :: rest) rest 1 (0, m) rfl Nat.one_pos (Nat.succ_pos rest.length) rfl
        (by
          intro j hj
          have hj0 : j = 0 := by omega
          subst hj0
          exact le_rfl)
        (by
          intro j hj
          exact absurd hj (Nat.not_lt_zero j))
      refine ⟨(argmaxFrom w (vocabF ((m :: rest) ++ [q])) q rest 1 (0, m)).1, h1, ?_, ?_, ?_⟩
      · intro j hj
        rw [h2]
        exact h3 j hj
      · intro j hj
        rw [h2]
        exact h4 j hj
      · rw [h2]
        simp only [_search_local_memory]
        rw [if_neg hv]
        by_cases hth : simThb w (vocabF ((m :: rest) ++ [q])) q
            (argmaxFrom w (vocabF ((m :: rest) ++ [q])) q rest 1 (0, m)).2 = true
        · rw [if_pos hth,
            if_pos ((simThb_iff w (vocabF ((m :: rest) ++ [q])) q _).mp hth)]
        · rw [if_neg hth,
            if_neg (fun hlt => hth ((simThb_iff w (vocabF ((m :: rest) ++ [q])) q _).mpr hlt))]

/-! ## C1: the local ranking -/

/-- C1 (corrected), amended claim: `_search_local_memory` returns `None`
on an empty corpus; on a non-empty corpus *whose fitted vocabulary is
non-empty* it computes a cosine similarity for every corpus entry, selects
a stable argmax `i` (every entry scores at most entry `i`, every earlier
entry scores strictly less), and returns that entry exactly when its
similarity strictly exceeds `0.2`; but when no document of
corpus-plus-query contributes a token, the vectorizer raises `ValueError`
instead of returning (the part the frozen claim misses). -/
theorem searchLocal_spec (w : String → ℚ) (corpus : List String) (q : String) :
    (corpus = [] → _search_local_memory w corpus q = Except.ok none) ∧
    (corpus ≠ [] → vocabF (corpus ++ [q]) = ∅ →
      _search_local_memory w corpus q = Except.error emptyVocabMsg) ∧
    (corpus ≠ [] → vocabF (corpus ++ [q]) ≠ ∅ →
      ∃ i, i < corpus.length ∧
        (∀ j, j < corpus.length →
          cosSim w (vocabF (corpus ++ [q])) q (corpus.getD j "")
            ≤ cosSim w (vocabF (corpus ++ [q])) q (corpus.getD i "")) ∧
        (∀ j, j < i →
          cosSim w (vocabF (corpus ++ [q])) q (corpus.getD j "")
            < cosSim w (vocabF (corpus ++ [q])) q (corpus.getD i "")) ∧
        _search_local_memory w corpus q = Except.ok
          (if 1 / 5 < cosSim w (vocabF (corpus ++ [q])) q (corpus.getD i "") then
            some (corpus.getD i "") else none)) := by
  refine ⟨?_, ?_, ?_⟩
  · intro h
    subst h
    rfl
  · intro hne hv
    cases corpus with
    | nil => exact absurd rfl hne
    | cons m rest =>
        simp only [_search_local_memory]
        rw [if_pos hv]
  · intro hne hv
    exact searchLocal_char w corpus q hne hv

unseal Rat.add Rat.mul in
/-- C1 witness: the three branches at concrete inputs — empty corpus,
token-free corpus `["?"]`, and the corpus `["aa bb"]` with query `"aa"`
(non-empty vocabulary, so the argmax characterisation applies). -/
theorem searchLocal_spec_witness :
    _search_local_memory (fun _ => 1) [] "hi" = Except.ok none ∧
    _search_local_memory (fun _ => 1) ["?"] "!" = Except.error emptyVocabMsg ∧
    (∃ i, i < (["aa bb"] : List String).length ∧
      (∀ j, j < (["aa bb"] : List String).length →
        cosSim (fun _ => 1) (vocabF (["aa bb"] ++ ["aa"])) "aa"
            ((["aa bb"] : List String).getD j "")
          ≤ cosSim (fun _ => 1) (vocabF (["aa bb"] ++ ["aa"])) "aa"
              ((["aa bb"] : List String).getD i "")) ∧
      (∀ j, j < i →
        cosSim (fun _ => 1) (vocabF (["aa bb"] ++ ["aa"])) "aa"
            ((["aa bb"] : List String).getD j "")
          < cosSim (fun _ => 1) (vocabF (["aa bb"] ++ ["aa"])) "aa"
              ((["aa bb"] : List String).getD i "")) ∧
      _search_local_memory (fun _ => 1) ["aa bb"] "aa" = Except.ok
        (if 1 / 5 < cosSim (fun _ => 1) (vocabF (["aa bb"] ++ ["aa"])) "aa"
            ((["aa bb"] : List String).getD i "") then
          some ((["aa bb"] : List String).getD i "") else none)) :=
  ⟨(searchLocal_spec (fun _ => 1) [] "hi").1 rfl,
   (searchLocal_spec (fun _ => 1) ["?"] "!").2.1 (by decide) (by decide),
   (searchLocal_spec (fun _ => 1) ["aa bb"] "aa").2.2 (by decide) (by decide)⟩

/-- C1 counterexample: for the corpus `["?"]` (one stored memory, no word
token anywhere) and the query `"?"`, the code does not return the
best-entry-or-`None` the claim describes for every corpus — the TF-IDF fit
raises `ValueError("empty vocabulary; ...")`. -/
theorem searchLocal_error_cex :
    _search_local_memory (fun _ => 1) ["?"] "?" = Except.error emptyVocabMsg := by
  decide

/-! ## C7: an identical entry scores 1.0 and is the maximum -/

lemma dotW_self_pos (w : String → ℚ) (hw : ∀ t, 0 < w t) (V : Finset String)
    (d t0 : String) (ht : t0 ∈ V) (hc : 0 < tcount d t0) :
    0 < dotW w V d d := by
  apply Finset.sum_pos' (fun t _ => by positivity)
  refine ⟨t0, ht, ?_⟩
  have h1 : (0:ℚ) < (tcount d t0 : ℚ) := by exact_mod_cast hc
  exact mul_pos (mul_pos h1 h1) (pow_pos (hw t0) 2)

/-- C7 (confirmed): for every corpus containing a string identical to the
query, that entry's cosine similarity (which equals `cosSim q q`) is the
maximum among all candidates; on the claim's concrete example the ranking
returns `"the cat sat"`, whose score is exactly `1`, above the `0.2`
threshold.  All of this holds for every positive idf weighting, hence for
scikit-learn's smooth idf. -/
theorem identical_query_is_max (w : String → ℚ) (hw : ∀ t, 0 < w t) :
    (∀ corpus q, q ∈ corpus → ∀ e ∈ corpus,
      cosSim w (vocabF (corpus ++ [q])) q e ≤ cosSim w (vocabF (corpus ++ [q])) q q) ∧
    _search_local_memory w ["the cat sat", "the dog ran"] "the cat sat"
      = Except.ok (some "the cat sat") ∧
    cosSim w (vocabF (["the cat sat", "the dog ran"] ++ ["the cat sat"]))
      "the cat sat" "the cat sat" = 1 := by
  have hgen : ∀ (V : Finset String) (q e : String), cosSim w V q e ≤ cosSim w V q q := by
    intro V q e
    by_cases hq : dotW w V q q = 0
    · rw [cosSim_zero_of w V q e (Or.inr hq), cosSim_zero_of w V q q (Or.inr hq)]
    · rw [cosSim_self w V q hq]
      exact cosSim_le_one w V q e
  have hqpos : 0 < dotW w (vocabF (["the cat sat", "the dog ran"] ++ ["the cat sat"]))
      "the cat sat" "the cat sat" :=
    dotW_self_pos w hw _ "the cat sat" "the" (by decide) (by decide)
  have hqne : dotW w (vocabF (["the cat sat", "the dog ran"] ++ ["the cat sat"]))
      "the cat sat" "the cat sat" ≠ 0 := ne_of_gt hqpos
  have cos1 : cosSim w (vocabF (["the cat sat", "the dog ran"] ++ ["the cat sat"]))
      "the cat sat" "the cat sat" = 1 :=
    cosSim_self w _ "the cat sat" hqne
  refine ⟨fun corpus q _hq e _he => hgen _ q e, ?_, cos1⟩
  have hvne : ¬ vocabF (["the cat sat", "the dog ran"] ++ ["the cat sat"]) = ∅ := by decide
  have hnotgt : ¬ simGTb w (vocabF (["the cat sat", "the dog ran"] ++ ["the cat sat"]))
      "the cat sat" "the dog ran" "the cat sat" = true := by
    intro h
    have hlt := (simGTb_iff w (vocabF (["the cat sat", "the dog ran"] ++ ["the cat sat"]))
      "the cat sat" "the dog ran" "the cat sat").mp h
    rw [cos1] at hlt
    exact absurd hlt (not_lt.mpr (cosSim_le_one w _ "the cat sat" "the dog ran"))
  have hbest : argmaxFrom w (vocabF (["the cat sat", "the dog ran"] ++ ["the cat sat"]))
      "the cat sat" ["the dog ran"] 1 (0, "the cat sat") = (0, "the cat sat") := by
    show (if simGTb w (vocabF (["the cat sat", "the dog ran"] ++ ["the cat sat"]))
        "the cat sat" "the dog ran" "the cat sat" then
          ((1, "the dog ran") : Nat × String) else (0, "the cat sat")) = (0, "the cat sat")
    rw [if_neg hnotgt]
  have hth : simThb w (vocabF (["the cat sat", "the dog ran"] ++ ["the cat sat"]))
      "the cat sat" "the cat sat" = true := by
    rw [simThb_iff, cos1]
    norm_num
  simp only [_search_local_memory]
  rw [if_neg hvne, hbest]
  show (if simThb w (vocabF (["the cat sat", "the dog ran"] ++ ["the cat sat"]))
      "the cat sat" "the cat sat" = true then
        Except.ok (some "the cat sat") else (Except.ok none : Except String (Option String)))
      = Except.ok (some "the cat sat")
  rw [if_pos hth]

/-- C7 witness: the instantiation at the constant positive weighting `1`
(the statement quantifies over the corpus in its first conjunct and is
concrete in the remaining two). -/
theorem identical_query_is_max_witness :
    (∀ corpus q, q ∈ corpus → ∀ e ∈ corpus,
      cosSim (fun _ => 1) (vocabF (corpus ++ [q])) q e
        ≤ cosSim (fun _ => 1) (vocabF (corpus ++ [q])) q q) ∧
    _search_local_memory (fun _ => 1) ["the cat sat", "the dog ran"] "the cat sat"
      = Except.ok (some "the cat sat") ∧
    cosSim (fun _ => 1) (vocabF (["the cat sat", "the dog ran"] ++ ["the cat sat"]))
      "the cat sat" "the cat sat" = 1 :=
  identical_query_is_max (fun _ => 1) (fun _ => one_pos)

/-- C8 witness: a store with one pdf record (id 1, `doc.pdf`), one pdf
memory and one user memory — `forget_pdf 5` is the not-found no-op,
`forget_pdf 1` removes exactly the pdf memory and the one record. -/
theorem forget_pdf_spec_witness :
    forget_pdf ⟨[⟨1, "pdf:" ++ "doc.pdf", "A"⟩, ⟨2, "user", "B"⟩], [⟨1, "doc.pdf"⟩]⟩ 5
      = (ForgetPdfResult.notFound 5,
         ⟨[⟨1, "pdf:" ++ "doc.pdf", "A"⟩, ⟨2, "user", "B"⟩], [⟨1, "doc.pdf"⟩]⟩) ∧
    ((forget_pdf ⟨[⟨1, "pdf:" ++ "doc.pdf", "A"⟩, ⟨2, "user", "B"⟩], [⟨1, "doc.pdf"⟩]⟩ 1).1
        = ForgetPdfResult.forgot "doc.pdf" ∧
      (forget_pdf ⟨[⟨1, "pdf:" ++ "doc.pdf", "A"⟩, ⟨2, "user", "B"⟩], [⟨1, "doc.pdf"⟩]⟩ 1).2.memory
        = (DB.mk [⟨1, "pdf:" ++ "doc.pdf", "A"⟩, ⟨2, "user", "B"⟩] [⟨1, "doc.pdf"⟩]).memory.filter
            (fun m => m.source != "pdf:" ++ "doc.pdf") ∧
      (forget_pdf ⟨[⟨1, "pdf:" ++ "doc.pdf", "A"⟩, ⟨2, "user", "B"⟩], [⟨1, "doc.pdf"⟩]⟩ 1).2.pdf_files
        = (DB.mk [⟨1, "pdf:" ++ "doc.pdf", "A"⟩, ⟨2, "user", "B"⟩] [⟨1, "doc.pdf"⟩]).pdf_files.filter
            (fun p => p.id != 1) ∧
      (forget_pdf ⟨[⟨1, "pdf:" ++ "doc.pdf", "A"⟩, ⟨2, "user", "B"⟩], [⟨1, "doc.pdf"⟩]⟩ 1).2.memory.length
          + ((DB.mk [⟨1, "pdf:" ++ "doc.pdf", "A"⟩, ⟨2, "user", "B"⟩] [⟨1, "doc.pdf"⟩]).memory.filter
              (fun m => m.source == "pdf:" ++ "doc.pdf")).length
        = (DB.mk [⟨1, "pdf:" ++ "doc.pdf", "A"⟩, ⟨2, "user", "B"⟩] [⟨1, "doc.pdf"⟩]).memory.length ∧
      (forget_pdf ⟨[⟨1, "pdf:" ++ "doc.pdf", "A"⟩, ⟨2, "user", "B"⟩], [⟨1, "doc.pdf"⟩]⟩ 1).2.pdf_files.length + 1
        = (DB.mk [⟨1, "pdf:" ++ "doc.pdf", "A"⟩, ⟨2, "user", "B"⟩] [⟨1, "doc.pdf"⟩]).pdf_files.length) :=
  ⟨(forget_pdf_spec ⟨[⟨1, "pdf:" ++ "doc.pdf", "A"⟩, ⟨2, "user", "B"⟩], [⟨1, "doc.pdf"⟩]⟩ 5).1
      (by decide),
   (fun h => ⟨h.1, h.2.1, h.2.2.1, h.2.2.2.1, h.2.2.2.2 (by decide)⟩)
     ((forget_pdf_spec ⟨[⟨1, "pdf:" ++ "doc.pdf", "A"⟩, ⟨2, "user", "B"⟩], [⟨1, "doc.pdf"⟩]⟩ 1).2
       ⟨1, "doc.pdf"⟩ (by decide))⟩

/-- C10 witness: ingesting `a/doc.pdf` and `b/doc.pdf` (same basename)
into the fresh store, then forgetting either record. -/
theorem ingest_same_basename_forget_pdf_witness :
    (ingest_pdf (ingest_pdf emptyDB "a/doc.pdf" ["X1"]).2 "b/doc.pdf" ["X2"]).2.pdf_files
        = emptyDB.pdf_files ++ [⟨nextPdfId emptyDB.pdf_files, basename "a/doc.pdf"⟩,
            ⟨nextPdfId emptyDB.pdf_files + 1, basename "a/doc.pdf"⟩] ∧
    (forget_pdf (ingest_pdf (ingest_pdf emptyDB "a/doc.pdf" ["X1"]).2 "b/doc.pdf" ["X2"]).2
        (nextPdfId emptyDB.pdf_files)).1 = ForgetPdfResult.forgot (basename "a/doc.pdf") ∧
    ((forget_pdf (ingest_pdf (ingest_pdf emptyDB "a/doc.pdf" ["X1"]).2 "b/doc.pdf" ["X2"]).2
        (nextPdfId emptyDB.pdf_files)).2.memory.filter
          (fun m => m.source == "pdf:" ++ basename "a/doc.pdf")) = [] ∧
    (⟨nextPdfId emptyDB.pdf_files + 1, basename "a/doc.pdf"⟩ : PdfFile)
        ∈ (forget_pdf (ingest_pdf (ingest_pdf emptyDB "a/doc.pdf" ["X1"]).2 "b/doc.pdf" ["X2"]).2
            (nextPdfId emptyDB.pdf_files)).2.pdf_files ∧
    (forget_pdf (ingest_pdf (ingest_pdf emptyDB "a/doc.pdf" ["X1"]).2 "b/doc.pdf" ["X2"]).2
        (nextPdfId emptyDB.pdf_files + 1)).1 = ForgetPdfResult.forgot (basename "a/doc.pdf") ∧
    ((forget_pdf (ingest_pdf (ingest_pdf emptyDB "a/doc.pdf" ["X1"]).2 "b/doc.pdf" ["X2"]).2
        (nextPdfId emptyDB.pdf_files + 1)).2.memory.filter
          (fun m => m.source == "pdf:" ++ basename "a/doc.pdf")) = [] ∧
    (⟨nextPdfId emptyDB.pdf_files, basename "a/doc.pdf"⟩ : PdfFile)
        ∈ (forget_pdf (ingest_pdf (ingest_pdf emptyDB "a/doc.pdf" ["X1"]).2 "b/doc.pdf" ["X2"]).2
            (nextPdfId emptyDB.pdf_files + 1)).2.pdf_files :=
  ingest_same_basename_forget_pdf emptyDB "a/doc.pdf" "b/doc.pdf" ["X1"] ["X2"] (by decide)
